import Mathlib

/-!
Verification development for the pywrf configuration / namelist pipeline.

The Python sources are shallowly embedded:
* Python strings are `List Char` (called `Str`); the string operations used by
  the code (split, strip, replace, membership) are defined below with Python's
  semantics.
* Python runtime values flowing through the configuration store are modelled by
  the inductive `PyVal` (None, int, str, bool, list, tuple, ordered dict).
* Fallible Python code (code that can raise) returns `Except PyErr _`.
* Python floats are modelled by exact rationals `ℚ`; machine integers by `Int`
  (Python ints are unbounded, so no wrap-around is modelled).
-/

set_option maxRecDepth 4000

/-- Python strings, modelled as their character lists. -/
abbrev Str := List Char

/-- Coerce a Lean string literal to the `Str` model. -/
def strOf (s : String) : Str := s.data

/-- `c in s` on a Python string (single-character membership). -/
def containsChar (s : Str) (c : Char) : Bool := s.any (fun d => d = c)

/-- Python `str.split(sep)` with a one-character separator: splits at every
occurrence, keeping empty segments (like Python, unlike `str.split()`!). -/
def splitAll (s : Str) (sep : Char) : List Str :=
  match s with
  | [] => [[]]
  | c :: rest =>
    match splitAll rest sep with
    | [] => [[]]
    | seg :: segs => if c = sep then [] :: seg :: segs else (c :: seg) :: segs

/-- Python `str.strip()`: drop whitespace from both ends. -/
def pyStrip (s : Str) : Str :=
  ((s.dropWhile Char.isWhitespace).reverse.dropWhile Char.isWhitespace).reverse

/-- Does `pat` occur at the head of `s`? (list prefix test) -/
def strStartsWith (s pat : Str) : Bool :=
  match pat, s with
  | [], _ => true
  | _ :: _, [] => false
  | p :: ps, c :: cs => p = c && strStartsWith cs ps

/-- Python `"sep".join(parts)` with a one-character separator. -/
def joinWith (sep : Char) : List Str → Str
  | [] => []
  | [s] => s
  | s :: rest => s ++ sep :: joinWith sep rest

/-- Python `str.replace(pat, rep)`: replace every (non-overlapping,
left-to-right) occurrence of `pat` in `s` by `rep`.  For the (unused) empty
pattern this returns `s`; every pattern built by the embedded code starts with
`eval(`, hence is nonempty.  The fuel argument is a step bound that keeps the
recursion structural (each step consumes at least one character of `s`, so
`s.length` is always enough); the wrapper below supplies it. -/
def replaceAllF : Nat → Str → Str → Str → Str
  | _, [], _, _ => []
  | 0, s, _, _ => s
  | fuel + 1, c :: rest, pat, rep =>
    if strStartsWith (c :: rest) pat = true ∧ pat ≠ [] then
      rep ++ replaceAllF fuel ((c :: rest).drop pat.length) pat rep
    else
      c :: replaceAllF fuel rest pat rep

def replaceAll (s pat rep : Str) : Str := replaceAllF s.length s pat rep

/-- Model of the Python runtime values that flow through `pywrf.util.config`.
`dict` models the ordered mapping type `SmartOrderedDict` as an ordered
association list. -/
inductive PyVal where
  | none : PyVal
  | int (n : Int) : PyVal
  | str (s : Str) : PyVal
  | bool (b : Bool) : PyVal
  | list (xs : List PyVal) : PyVal
  | tuple (xs : List PyVal) : PyVal
  | dict (entries : List (Str × PyVal)) : PyVal

/-- The Python exceptions the embedded code can raise. -/
inductive PyErr where
  | keyError (k : Str) : PyErr
  | typeError : PyErr
  | valueError : PyErr
  | syntaxError : PyErr
  | nameError : PyErr
  /-- `Exception("Error while parsing '...'")` raised by `tryto_eval`. -/
  | evalError (msg : Str) : PyErr

/-- `value is None`. -/
def PyVal.isNone : PyVal → Bool
  | .none => true
  | _ => false

/-- Python type tags, used to model `type(value) != type(default)`. -/
inductive PyTy where
  | noneTy | intTy | strTy | boolTy | listTy | tupleTy | dictTy
deriving DecidableEq

/-- `type(v)`. -/
def PyVal.ty : PyVal → PyTy
  | .none => .noneTy
  | .int _ => .intTy
  | .str _ => .strTy
  | .bool _ => .boolTy
  | .list _ => .listTy
  | .tuple _ => .tupleTy
  | .dict _ => .dictTy

/-- Decimal representation of a Python int (`str(n)`). -/
def intToStr (n : Int) : Str := (toString n).data

/-- `str(v)` for the values the configuration code prints back into strings. -/
def pyStr : PyVal → Str
  | .none => strOf ("None")
  | .int n => intToStr n
  | .str s => s
  | .bool b => if b then strOf ("True") else strOf ("False")
  | .list _ => strOf ("[...]")
  | .tuple _ => strOf ("(...)")
  | .dict _ => strOf ("{...}")

/-- Python `int(s)` on a string: strip, optional sign, decimal digits;
raises `ValueError` otherwise. -/
def pyIntOfStr (s : Str) : Except PyErr Int :=
  let t := pyStrip s
  let (neg, ds) : Bool × Str :=
    match t with
    | c :: rest => if c = '-' then (true, rest) else if c = '+' then (false, rest) else (false, t)
    | [] => (false, t)
  if ds = [] then .error .valueError
  else if ds.all Char.isDigit then
    let n : Int := ds.foldl (fun acc c => acc * 10 + (c.toNat - 48 : Nat)) 0
    .ok (if neg then -n else n)
  else .error .valueError

/-- The single-quote character (written via its code point to keep character
literals simple). -/
def quoteChar : Char := Char.ofNat 39

/-- The double-quote character. -/
def dquoteChar : Char := Char.ofNat 34

/-- The arithmetic-operator characters of `RE_OP_STRING = [\+\-\*/%]+`. -/
def isArithOp (c : Char) : Bool := c = '+' || c = '-' || c = '*' || c = '/' || c = '%'

/-- `RE_OP_STRING.search(value) is not None`: the string contains at least one
of the operator characters `+ - * / %`. -/
def containsArithOp (s : Str) : Bool := s.any isArithOp

/-- Tokens of the (restricted) Python expression language that the
configuration files feed to `eval`: integer literals, quoted string literals,
identifiers, the arithmetic operators and the comma. -/
inductive Tok where
  | int (n : Int) : Tok
  | str (s : Str) : Tok
  | ident (s : Str) : Tok
  | op (c : Char) : Tok
  | comma : Tok
deriving DecidableEq

/-- Value of a nonempty digit string. -/
def digitsToInt (ds : Str) : Int :=
  ds.foldl (fun acc c => acc * 10 + (c.toNat - 48 : Nat)) 0

/-- Scan for the closing quote `q`; returns the literal and the remainder. -/
def spanToQuote (q : Char) : Str → Option (Str × Str)
  | [] => Option.none
  | c :: rest =>
    if c = q then Option.some ([], rest)
    else (spanToQuote q rest).map (fun p => (c :: p.1, p.2))

theorem spanToQuote_length {q : Char} {s lit tl : Str}
    (h : spanToQuote q s = Option.some (lit, tl)) : tl.length < s.length := by
  induction s generalizing lit with
  | nil => simp [spanToQuote] at h
  | cons c rest ih =>
    simp only [spanToQuote] at h
    split at h
    · cases h
      simp
    · cases hrec : spanToQuote q rest with
      | none => rw [hrec] at h; simp at h
      | some p =>
        rw [hrec] at h
        simp only [Option.map_some'] at h
        cases h
        have := ih (by simpa using hrec)
        simp only [List.length_cons]
        omega

/-- Is this character allowed to continue an identifier? -/
def isIdentChar (c : Char) : Bool := c.isAlphanum || c = '_'

/-- Tokenizer for the Python expressions appearing in configuration values.
Anything outside the modelled fragment (parentheses, floats, ...) is reported
as a `SyntaxError`, which `tryto_eval` treats like any other evaluation
failure.  Each step consumes at least one character, so the fuel `s.length`
supplied by the wrapper never runs out. -/
def tokenizeF : Nat → Str → Except PyErr (List Tok)
  | _, [] => .ok []
  | 0, _ => .error .syntaxError
  | fuel + 1, c :: rest =>
    if c.isWhitespace then tokenizeF fuel rest
    else if c.isDigit then
      (tokenizeF fuel ((c :: rest).dropWhile Char.isDigit)).map
        (fun ts => .int (digitsToInt ((c :: rest).takeWhile Char.isDigit)) :: ts)
    else if c.isAlpha || c = '_' then
      (tokenizeF fuel ((c :: rest).dropWhile isIdentChar)).map
        (fun ts => .ident ((c :: rest).takeWhile isIdentChar) :: ts)
    else if isArithOp c then (tokenizeF fuel rest).map (fun ts => .op c :: ts)
    else if c = ',' then (tokenizeF fuel rest).map (fun ts => .comma :: ts)
    else if c = quoteChar || c = dquoteChar then
      match spanToQuote c rest with
      | Option.some p => (tokenizeF fuel p.2).map (fun ts => .str p.1 :: ts)
      | Option.none => .error .syntaxError
    else .error .syntaxError

def tokenize (s : Str) : Except PyErr (List Tok) := tokenizeF s.length s

/-- Apply a Python binary arithmetic operator to two ints (Python 2 semantics:
`/` is floor division on ints; division by zero raises). -/
def applyOp (c : Char) (a b : Int) : Except PyErr Int :=
  if c = '+' then .ok (a + b)
  else if c = '-' then .ok (a - b)
  else if c = '*' then .ok (a * b)
  else if c = '/' then (if b = 0 then .error .valueError else .ok (Int.fdiv a b))
  else if c = '%' then (if b = 0 then .error .valueError else .ok (Int.fmod a b))
  else .error .syntaxError

/-- Strip leading unary `+`/`-` signs; returns (number of signs, negate?, rest). -/
def stripSigns : List Tok → Nat × Bool × List Tok
  | .op c :: rest =>
    if c = '-' then
      ((stripSigns rest).1 + 1, !(stripSigns rest).2.1, (stripSigns rest).2.2)
    else if c = '+' then
      ((stripSigns rest).1 + 1, (stripSigns rest).2.1, (stripSigns rest).2.2)
    else (0, false, .op c :: rest)
  | ts => (0, false, ts)

theorem stripSigns_length (ts : List Tok) : (stripSigns ts).2.2.length ≤ ts.length := by
  induction ts with
  | nil => simp [stripSigns]
  | cons t rest ih =>
    cases t with
    | op c =>
      simp only [stripSigns]
      split
      · simp only [List.length_cons]; omega
      · split
        · simp only [List.length_cons]; omega
        · simp
    | int n => simp [stripSigns]
    | str s => simp [stripSigns]
    | ident s => simp [stripSigns]
    | comma => simp [stripSigns]

/-- A single atom: literal, keyword, or identifier (an unknown identifier
raises `NameError`, exactly what a bare word does under Python `eval`). -/
def parseAtom : List Tok → Except PyErr (PyVal × List Tok)
  | .int n :: rest => .ok (.int n, rest)
  | .str s :: rest => .ok (.str s, rest)
  | .ident s :: rest =>
    if s = strOf ("True") then .ok (.bool true, rest)
    else if s = strOf ("False") then .ok (.bool false, rest)
    else if s = strOf ("None") then .ok (.none, rest)
    else .error .nameError
  | _ => .error .syntaxError

/-- Python truth/number coercion of bools inside arithmetic. -/
def asInt : PyVal → Except PyErr Int
  | .int n => .ok n
  | .bool b => .ok (if b then 1 else 0)
  | _ => .error .typeError

/-- An atom with optional unary signs. -/
def parseSigned (ts : List Tok) : Except PyErr (PyVal × List Tok) :=
  match parseAtom (stripSigns ts).2.2 with
  | .error e => .error e
  | .ok (v, rest) =>
    if (stripSigns ts).1 = 0 then .ok (v, rest)
    else
      match asInt v with
      | .error e => .error e
      | .ok n => .ok (.int (if (stripSigns ts).2.1 then -n else n), rest)

theorem parseAtom_length {ts rest : List Tok} {v : PyVal}
    (h : parseAtom ts = .ok (v, rest)) : rest.length < ts.length := by
  match ts with
  | [] => simp [parseAtom] at h
  | .int n :: r => simp only [parseAtom] at h; cases h; simp
  | .str s :: r => simp only [parseAtom] at h; cases h; simp
  | .ident s :: r =>
    simp only [parseAtom] at h
    split at h
    · cases h; simp
    · split at h
      · cases h; simp
      · split at h
        · cases h; simp
        · simp at h
  | .op c :: r => simp [parseAtom] at h
  | .comma :: r => simp [parseAtom] at h

theorem parseSigned_length {ts rest : List Tok} {v : PyVal}
    (h : parseSigned ts = .ok (v, rest)) : rest.length < ts.length := by
  unfold parseSigned at h
  have hle := stripSigns_length ts
  split at h
  · simp at h
  · rename_i w r heq
    have hlt := parseAtom_length heq
    split at h
    · cases h
      omega
    · split at h
      · simp at h
      · cases h
        omega

/-- Left-to-right evaluation of an operator chain with Python precedence
(`* / %` bind tighter than `+ -`): `sum addop prod` is the usual
sum/pending-operator/current-product machine.  `fuel` is an upper bound on the
remaining token count (the chain consumes at least one token per step). -/
def evalChain (fuel : Nat) (sum : Int) (addop : Char) (prod : Int)
    (ts : List Tok) : Except PyErr Int :=
  match fuel, ts with
  | _, [] => applyOp addop sum prod
  | 0, _ => .error .syntaxError
  | fuel + 1, .op c :: rest =>
    if c = '*' || c = '/' || c = '%' then
      match parseSigned rest with
      | .error e => .error e
      | .ok (v, rest') =>
        match asInt v with
        | .error e => .error e
        | .ok n =>
          match applyOp c prod n with
          | .error e => .error e
          | .ok prod' => evalChain fuel sum addop prod' rest'
    else if c = '+' || c = '-' then
      match applyOp addop sum prod with
      | .error e => .error e
      | .ok sum' =>
        match parseSigned rest with
        | .error e => .error e
        | .ok (v, rest') =>
          match asInt v with
          | .error e => .error e
          | .ok n => evalChain fuel sum' c n rest'
    else .error .syntaxError
  | _ + 1, _ => .error .syntaxError

/-- Evaluate one comma-free expression (a chain of signed atoms joined by
arithmetic operators; a single atom may be of any type, a chain must be
numeric). -/
def evalTermToks (ts : List Tok) : Except PyErr PyVal :=
  match parseSigned ts with
  | .error e => .error e
  | .ok (v, rest) =>
    if rest.isEmpty then .ok v
    else
      match asInt v with
      | .error e => .error e
      | .ok n =>
        match evalChain rest.length 0 '+' n rest with
        | .error e => .error e
        | .ok m => .ok (.int m)

/-- Split a token list at the top-level commas (the grammar has no brackets). -/
def splitToks : List Tok → List (List Tok)
  | [] => [[]]
  | .comma :: rest =>
    [] :: splitToks rest
  | t :: rest =>
    match splitToks rest with
    | [] => [[t]]
    | seg :: segs => (t :: seg) :: segs

/-- Evaluate a tokenized expression: either a single expression or a
comma-separated tuple (a trailing comma is allowed, as in Python). -/
def pyEvalToks (ts : List Tok) : Except PyErr PyVal :=
  match splitToks ts with
  | [seg] => if seg.isEmpty then .error .syntaxError else evalTermToks seg
  | segs =>
    let segs' := if segs.getLast? = Option.some [] then segs.dropLast else segs
    if segs'.any List.isEmpty then .error .syntaxError
    else
      match segs'.mapM evalTermToks with
      | .error e => .error e
      | .ok vs => .ok (.tuple vs)

/-- Model of CPython `eval` restricted to the expression fragment that the
configuration micro-language actually uses: int literals, quoted strings,
`True`/`False`/`None`, unary signs, the binary operators `+ - * / %` (Python 2
integer semantics) and tuple displays without parentheses.  Undefined names
raise `NameError`; everything else (floats, parentheses, attribute access,
calls, ...) raises `SyntaxError`.  `tryto_eval` only distinguishes success
from failure, so the precise error kind is irrelevant to the embedded code. -/
def pyEval (s : Str) : Except PyErr PyVal :=
  match tokenize s with
  | .error e => .error e
  | .ok ts => pyEvalToks ts

/-- Lazy scan of `RE_EVAL_STRING`'s `(?P<eval_str>.*?)(?P=bracket)?\)` part
when the `bracket` group captured the quote `q`: at each position the optional
back-reference (followed by `)`) is tried first, then `)` alone, then the
inner text is extended by one character.  Returns (inner text, remainder). -/
def lazyEndQ (q : Char) : Str → Option (Str × Str)
  | [] => Option.none
  | c :: rest =>
    if c = q ∧ rest.head? = Option.some ')' then Option.some ([], rest.tail)
    else if c = ')' then Option.some ([], rest)
    else (lazyEndQ q rest).map (fun p => (c :: p.1, p.2))

/-- Lazy scan when the `bracket` group did not participate: an unmatched
back-reference never matches, so the inner text simply extends to the first
`)`. -/
def lazyEndN : Str → Option (Str × Str)
  | [] => Option.none
  | c :: rest =>
    if c = ')' then Option.some ([], rest)
    else (lazyEndN rest).map (fun p => (c :: p.1, p.2))

theorem lazyEndQ_length {q : Char} {s lit tl : Str}
    (h : lazyEndQ q s = Option.some (lit, tl)) : tl.length < s.length := by
  induction s generalizing lit with
  | nil => simp [lazyEndQ] at h
  | cons c rest ih =>
    simp only [lazyEndQ] at h
    split at h
    · rename_i hq
      cases h
      cases rest with
      | nil => simp at hq
      | cons d tl2 => simp only [List.tail_cons, List.length_cons]; omega
    · split at h
      · cases h
        simp
      · cases hrec : lazyEndQ q rest with
        | none => rw [hrec] at h; simp at h
        | some p =>
          rw [hrec] at h
          simp only [Option.map_some'] at h
          cases h
          have := ih (by simpa using hrec)
          simp only [List.length_cons]
          omega

theorem lazyEndN_length {s lit tl : Str}
    (h : lazyEndN s = Option.some (lit, tl)) : tl.length < s.length := by
  induction s generalizing lit with
  | nil => simp [lazyEndN] at h
  | cons c rest ih =>
    simp only [lazyEndN] at h
    split at h
    · cases h
      simp
    · cases hrec : lazyEndN rest with
      | none => rw [hrec] at h; simp at h
      | some p =>
        rw [hrec] at h
        simp only [Option.map_some'] at h
        cases h
        have := ih (by simpa using hrec)
        simp only [List.length_cons]
        omega

/-- `RE_EVAL_STRING.findall(value)` for the pattern
`eval\((?P<bracket>["'])?(?P<eval_str>.*?)(?P=bracket)?\)`:
scan left to right; at each position where `eval(` matches, capture an
optional opening quote, then find the lazily shortest inner text; on success
record `(bracket, eval_str)` (an unmatched bracket group is reported as the
empty string, as `findall` does) and continue after the match.  If the quote
was captured but no closing `)` exists, the regex backtracks to an uncaptured
bracket group, which then cannot find a `)` either, so the scan just moves
on one character.  Each step consumes at least one character, so the fuel
`s.length` supplied by the wrapper never runs out. -/
def findEvalMatchesF : Nat → Str → List (Str × Str)
  | _, [] => []
  | 0, _ => []
  | fuel + 1, c :: rest =>
    if strStartsWith (c :: rest) (strOf ("eval(")) then
      match (c :: rest).drop 5 with
      | q :: rest2 =>
        if q = quoteChar ∨ q = dquoteChar then
          match lazyEndQ q rest2 with
          | Option.some p => ([q], p.1) :: findEvalMatchesF fuel p.2
          | Option.none => findEvalMatchesF fuel rest
        else
          match lazyEndN (q :: rest2) with
          | Option.some p => ([], p.1) :: findEvalMatchesF fuel p.2
          | Option.none => findEvalMatchesF fuel rest
      | [] => findEvalMatchesF fuel rest
    else findEvalMatchesF fuel rest

def findEvalMatches (s : Str) : List (Str × Str) := findEvalMatchesF s.length s

/-- Python tuples are converted to lists by `tryto_eval` (lines 61-62). -/
def tupleToList : PyVal → PyVal
  | .tuple xs => .list xs
  | v => v

/-- The `for result in results:` loop of `tryto_eval`: each `eval(...)` match
is replaced by the printed value of its evaluated inner text, and the whole
updated string is evaluated again.  Any exception in an iteration is turned
into `Exception("Error while parsing '<inner>'")`. -/
def evalLoop : PyVal → List (Str × Str) → Except PyErr PyVal
  | value, [] => .ok value
  | value, (q, inner) :: rest =>
    match (do
      let innerV ← pyEval inner
      let s ← (match value with
        | .str s => Except.ok s
        | _ => Except.error PyErr.typeError)
      pyEval (replaceAll s (strOf ("eval(") ++ q ++ inner ++ q ++ strOf (")"))
        (pyStr innerV)) : Except PyErr PyVal) with
    | .ok v => evalLoop v rest
    | .error _ =>
      .error (.evalError (strOf ("Error while parsing '") ++ inner ++ strOf ("'")))

/-- `pywrf.util.config.tryto_eval` (src/pywrf/util/config.py lines 49-78).
If the value holds no `eval(...)` marker it is evaluated as a whole — but only
when it contains none of the operators `+ - * / %` (this protects date strings
like `2015-01-01`); a failed evaluation leaves the text unchanged.  Otherwise
every `eval(...)` marker is substituted by its evaluated inner text. -/
def tryto_eval (value : Str) : Except PyErr PyVal :=
  let results := findEvalMatches value
  if results.isEmpty then
    .ok (if containsArithOp value then .str value
      else match pyEval value with
        | .ok v => tupleToList v
        | .error _ => .str value)
  else
    evalLoop (.str value) results

/-- One entry of the repeat-count expansion loop of `transform_value` (lines
92-96): evaluate the segment; if the result is a string containing `*`, split
it as `<N>*<literal>` and replace the entry by `N` copies of the literal,
otherwise keep the original segment string. -/
def expandSeg (s : Str) : Except PyErr (Str ⊕ List Str) :=
  match tryto_eval s with
  | .error e => .error e
  | .ok v =>
    match v with
    | .str t =>
      if containsChar t '*' then
        match splitAll t '*' with
        | [nb, val] =>
          match pyIntOfStr nb with
          | .error e => .error e
          | .ok n => .ok (Sum.inr (List.replicate n.toNat val))
        | _ => .error .valueError
      else .ok (Sum.inl s)
    | _ => .ok (Sum.inl s)

/-- One entry of the flatten-and-evaluate loop of `transform_value` (lines
99-111): a list entry is mapped through `tryto_eval`, a string entry is
evaluated and wrapped; any exception is swallowed (`except: pass`) leaving the
entry as it was, and the result is appended to the accumulator. -/
def flattenStep (acc : List PyVal) : Str ⊕ List Str → List PyVal
  | Sum.inr l =>
    match l.mapM (fun e => tryto_eval e) with
    | .ok vs => acc ++ vs
    | .error _ => acc ++ l.map PyVal.str
  | Sum.inl s =>
    match tryto_eval s with
    | .ok v => acc ++ [v]
    | .error _ => acc ++ [PyVal.str s]

/-- Python truthiness, for `bool(value)`. -/
def pyTruthy : PyVal → Bool
  | .none => false
  | .int n => n ≠ 0
  | .str s => s ≠ []
  | .bool b => b
  | .list xs => !xs.isEmpty
  | .tuple xs => !xs.isEmpty
  | .dict es => !es.isEmpty

/-- `type(default)(value)` — the final coercion of `transform_value` (line
120), modelled for the constructors the configuration code can meet;
unsupported conversions raise `TypeError`/`ValueError` like Python. -/
def pyTypeCast (default v : PyVal) : Except PyErr PyVal :=
  match default with
  | .int _ =>
    (match v with
     | .int n => .ok (.int n)
     | .bool b => .ok (.int (if b then 1 else 0))
     | .str s =>
       (match pyIntOfStr s with
        | .error e => .error e
        | .ok n => .ok (.int n))
     | _ => .error .typeError)
  | .str _ => .ok (.str (pyStr v))
  | .bool _ => .ok (.bool (pyTruthy v))
  | .list _ =>
    (match v with
     | .list xs => .ok (.list xs)
     | .tuple xs => .ok (.list xs)
     | .str s => .ok (.list (s.map (fun c => .str [c])))
     | _ => .error .typeError)
  | .tuple _ =>
    (match v with
     | .list xs => .ok (.tuple xs)
     | .tuple xs => .ok (.tuple xs)
     | _ => .error .typeError)
  | _ => .error .typeError

/-- `pywrf.util.config.transform_value` (src/pywrf/util/config.py lines
81-122): evaluate a textual value, expand comma/asterisk list specifications
(split on commas, drop empty segments, strip, expand `N*literal`, flatten one
level, evaluate entries), substitute the caller's default for `None`, and
force the result to the default's type when both are non-None and differ. -/
def transform_value (value : PyVal) (default : PyVal) : Except PyErr PyVal :=
  match (match value with
         | .str s => tryto_eval s
         | v => Except.ok v) with
  | .error e => .error e
  | .ok value1 =>
    match (match value1 with
           | .str s =>
             if containsChar s ',' || containsChar s '*' then
               match (((splitAll s ',').filter (fun e => e ≠ [])).map pyStrip).mapM expandSeg with
               | .error e => Except.error e
               | .ok items => Except.ok (PyVal.list (items.foldl flattenStep []))
             else tryto_eval s
           | v => Except.ok v) with
    | .error e => .error e
    | .ok value2 =>
      if value2.isNone then .ok default
      else if !default.isNone && value2.ty ≠ default.ty then pyTypeCast default value2
      else .ok value2

/-- Look a key up in an ordered mapping (no `__missing__`: plain `find`). -/
def sodFind (entries : List (Str × PyVal)) (k : Str) : Option PyVal :=
  match entries.find? (fun e => e.1 = k) with
  | Option.some e => Option.some e.2
  | Option.none => Option.none

/-- `SmartOrderedDict.__getitem__`: subscription falls back to
`__missing__(key) = None` for an absent key (src/pywrf/util/config.py lines
127-128), so an absent key and a key holding `None` are indistinguishable. -/
def sodLookup (entries : List (Str × PyVal)) (k : Str) : PyVal :=
  (sodFind entries k).getD .none

/-- `OrderedDict.__setitem__` without value transformation: replace in place
if the key exists (keeping its position), else append. -/
def sodSetRaw (entries : List (Str × PyVal)) (k : Str) (v : PyVal) : List (Str × PyVal) :=
  if (entries.find? (fun e => e.1 = k)).isSome then
    entries.map (fun e => if e.1 = k then (e.1, v) else e)
  else entries ++ [(k, v)]

/-- `SmartOrderedDict.__setitem__` (line 130-131): every stored value passes
through `transform_value` (with no default), which can raise. -/
def sodSet (entries : List (Str × PyVal)) (k : Str) (v : PyVal) :
    Except PyErr (List (Str × PyVal)) :=
  match transform_value v PyVal.none with
  | .error e => .error e
  | .ok v' => .ok (sodSetRaw entries k v')

/-- `del entries[k]`. -/
def sodDelete (entries : List (Str × PyVal)) (k : Str) : List (Str × PyVal) :=
  entries.filter (fun e => e.1 ≠ k)

mutual

/-- Executable size measure on `PyVal` (the derived `SizeOf` instance for the
nested inductive has no executable code). -/
def pyValSize : PyVal → Nat
  | .dict es => 1 + pyEntriesSize es
  | _ => 1

/-- Executable size measure on ordered-mapping entry lists. -/
def pyEntriesSize : List (Str × PyVal) → Nat
  | [] => 1
  | (_, v) :: rest => 1 + pyValSize v + pyEntriesSize rest

end

/-- `SmartOrderedDict.update` (src/pywrf/util/config.py lines 136-150): merge
`other` into `self`; when a key is present in both and both values are
mappings the values are merged recursively (in place, without re-running
`transform_value`), otherwise the other value overwrites (through
`__setitem__`, hence through `transform_value`).  The fuel keeps the nested
recursion structural; `pyEntriesSize other` strictly bounds the recursion
depth, so the wrapper's fuel never runs out. -/
def sodUpdateF : Nat → List (Str × PyVal) → List (Str × PyVal) → Except PyErr (List (Str × PyVal))
  | _, self, [] => .ok self
  | 0, _, _ => .error .valueError
  | fuel + 1, self, (k, o) :: rest =>
    match (match sodFind self k, o with
           | Option.some (PyVal.dict s), PyVal.dict od =>
             (match sodUpdateF fuel s od with
              | .error e => Except.error e
              | .ok m => Except.ok (sodSetRaw self k (PyVal.dict m)))
           | Option.some _, _ => sodSet self k o
           | Option.none, _ => sodSet self k o) with
    | .error e => .error e
    | .ok self' => sodUpdateF fuel self' rest

def sodUpdate (self other : List (Str × PyVal)) : Except PyErr (List (Str × PyVal)) :=
  sodUpdateF (pyEntriesSize other) self other

/-- The include-resolution part of `ConfigStore.read_config_file`
(src/pywrf/util/config.py lines 276-287): starting from the empty store, merge
each included file's (recursively resolved) tree in declaration order, drop
the `include` key from the file's own mapping, and merge that mapping last so
the file's own definitions win.  Reading and parsing the included files
(pyyaml, file I/O) are external collaborators; their resolved trees are taken
as input. -/
def mergeIncludes (config_dict : List (Str × PyVal))
    (includeTrees : List (List (Str × PyVal))) : Except PyErr (List (Str × PyVal)) :=
  match includeTrees.foldlM (fun acc t => sodUpdate acc t) ([] : List (Str × PyVal)) with
  | .error e => .error e
  | .ok base => sodUpdate base (sodDelete config_dict (strOf ("include")))

/-- Python subscription `value[arg]` as used by `ConfigStore.get`: mappings
use `SmartOrderedDict` lookup (absent keys give `None`); subscribing anything
else with a string key raises `TypeError`. -/
def pyIndex (v : PyVal) (k : Str) : Except PyErr PyVal :=
  match v with
  | .dict entries => .ok (sodLookup entries k)
  | _ => .error .typeError

/-- The traversal loop of `ConfigStore.get` (src/pywrf/util/config.py lines
232-241): index one segment at a time; as soon as the current value is `None`
either raise `KeyError(arg)` (strict mode) or return the transformed default;
after the loop return the transformed value. -/
def getLoop (v : PyVal) (segs : List Str) (raise_keyerror : Bool)
    (default : PyVal) : Except PyErr PyVal :=
  match segs with
  | [] => transform_value v default
  | a :: rest =>
    match pyIndex v a with
    | .error e => .error e
    | .ok v' =>
      if v'.isNone then
        (if raise_keyerror then .error (.keyError a) else transform_value PyVal.none default)
      else getLoop v' rest raise_keyerror default

/-- The configuration store: its ordered tree of values. -/
structure ConfigStore where
  _values : List (Str × PyVal)

/-- `ConfigStore.get(*args, raise_keyerror=..., default=...)`
(src/pywrf/util/config.py lines 216-241): the positional arguments are joined
with `/` and re-split, then the nested lookup loop runs. -/
def ConfigStore.get (store : ConfigStore) (args : List Str)
    (raise_keyerror : Bool) (default : PyVal) : Except PyErr PyVal :=
  getLoop (PyVal.dict store._values) (splitAll (joinWith '/' args) '/') raise_keyerror default

/-- Specification-side helper (not part of the source): walk a path through
nested mappings, requiring every step to subscript successfully and produce a
non-`None` value. -/
def walkOk : PyVal → List Str → Option PyVal
  | v, [] => Option.some v
  | v, a :: rest =>
    match pyIndex v a with
    | .error _ => Option.none
    | .ok v' => if v'.isNone then Option.none else walkOk v' rest

/-- The continuation condition of the divisor-search loop in `calc_time_step`
(src/pywrf/namelist/wrf.py line 37):
`interval_s/float(k) - float(interval_s/k) > 1e-12`, with Python 2 integer
division `interval_s/k` and floats modelled as exact rationals. -/
def stepCondP (interval_s k : ℕ) : Prop :=
  (1 : ℚ) / 1000000000000 < (interval_s : ℚ) / (k : ℚ) - ((interval_s / k : ℕ) : ℚ)

instance stepCondP.decidable (interval_s k : ℕ) : Decidable (stepCondP interval_s k) := by
  unfold stepCondP
  infer_instance

theorem stepCondP_false_of_ge (interval_s m : ℕ)
    (h : interval_s * 1000000000000 ≤ m) : ¬ stepCondP interval_s m := by
  intro hc
  unfold stepCondP at hc
  rcases Nat.eq_zero_or_pos interval_s with hi | hi
  · subst hi
    norm_num at hc
  · have hm : interval_s < m := by nlinarith
    have hm0 : 0 < m := by omega
    rw [Nat.div_eq_of_lt hm] at hc
    simp only [Nat.cast_zero, sub_zero] at hc
    rw [div_lt_div_iff (by norm_num) (by exact_mod_cast hm0)] at hc
    have : (m : ℚ) < interval_s * 1000000000000 := by linarith
    have h' : (interval_s * 1000000000000 : ℚ) ≤ (m : ℚ) := by exact_mod_cast h
    push_cast at h'
    linarith

theorem stepLoop_exists (interval_s k : ℕ) : ∃ j, ¬ stepCondP interval_s (k + j) :=
  ⟨interval_s * 1000000000000,
    stepCondP_false_of_ge interval_s _ (by omega)⟩

/-- The `while ...: k += 1` loop of `calc_time_step`: starting from `k`, the
first divisor count at which the continuation condition fails. -/
def stepLoop (interval_s k : ℕ) : ℕ :=
  k + Nat.find (stepLoop_exists interval_s k)

/-- `int(math.ceil(interval_s/(float(5*dx/1000.))))` — the initial divisor
count of `calc_time_step` (line 35). -/
def startK (dx : ℚ) (interval_s : ℕ) : ℕ :=
  (⌈(interval_s : ℚ) / (5 * dx / 1000)⌉).toNat

/-- `pywrf.namelist.wrf.calc_time_step` (src/pywrf/namelist/wrf.py lines
33-40): search upward from the physical estimate for the first divisor count
`k` accepted by the tolerance test, and return `interval_s / k` (Python 2
integer division). -/
def calc_time_step (dx : ℚ) (interval_s : ℕ) : ℕ :=
  interval_s / stepLoop interval_s (startK dx interval_s)

theorem stepLoop_eq_self (interval_s k : ℕ) (h : ¬ stepCondP interval_s k) :
    stepLoop interval_s k = k := by
  unfold stepLoop
  have : Nat.find (stepLoop_exists interval_s k) = 0 :=
    Nat.find_eq_zero _ |>.mpr (by simpa using h)
  omega

/-- Cubic Hermite basis `h00` (src/pywrf/namelist/wrf.py line 22). -/
def h00 {K : Type} [Field K] (t : K) : K := 2*t*t*t - 3*t*t + 1

/-- Cubic Hermite basis `h01` (line 23). -/
def h01 {K : Type} [Field K] (t : K) : K := t*t*(3 - 2*t)

/-- Cubic Hermite basis `h10` (line 24). -/
def h10 {K : Type} [Field K] (t : K) : K := t*(t*t - 2*t + 1)

/-- Cubic Hermite basis `h11` (line 25). -/
def h11 {K : Type} [Field K] (t : K) : K := t*t*(t - 1)

/-- `fc = h01(x) + m0*h10(x) + m1*h11(x)` with the fixed tangent coefficients
`m0 = 0.7`, `m1 = 0.6` (the defaults, never overridden by any caller). -/
def fcH {K : Type} [Field K] (x : K) : K := h01 x + (7/10) * h10 x + (3/5) * h11 x

/-- `eta = h00(fc) + n0*h10(x) + n1*h11(x)` with `n0 = -0.2`, `n1 = -0.275`. -/
def etaH {K : Type} [Field K] (x : K) : K :=
  h00 (fcH x) + (-(1/5)) * h10 x + (-(11/40)) * h11 x

/-- `pywrf.namelist.wrf.compute_eta_levels` (src/pywrf/namelist/wrf.py lines
19-30): evaluate the Hermite blend at `n_levels` evenly spaced points
`i/(n_levels-1)`, `i = 0..n_levels-1` (floats modelled as exact rationals). -/
def compute_eta_levels (n_levels : ℕ) : List ℚ :=
  (List.range n_levels).map (fun i : ℕ => etaH ((i : ℚ) / ((n_levels : ℚ) - 1)))

/-- Python `datetime.datetime` values (proleptic Gregorian calendar). -/
structure PyDateTime where
  year : Int
  month : Int
  day : Int
  hour : Int
  minute : Int
  second : Int
deriving DecidableEq

/-- Days since 1970-01-01 of a proleptic Gregorian civil date (the standard
era-based algorithm, with floor division). -/
def days_from_civil (y m d : Int) : Int :=
  let y' := if m ≤ 2 then y - 1 else y
  let era := Int.fdiv y' 400
  let yoe := y' - era * 400
  let doy := Int.fdiv (153 * (if 2 < m then m - 3 else m + 9) + 2) 5 + d - 1
  let doe := yoe * 365 + Int.fdiv yoe 4 - Int.fdiv yoe 100 + doy
  era * 146097 + doe - 719468

/-- Inverse of `days_from_civil`. -/
def civil_from_days (z : Int) : Int × Int × Int :=
  let z' := z + 719468
  let era := Int.fdiv z' 146097
  let doe := z' - era * 146097
  let yoe := Int.fdiv (doe - Int.fdiv doe 1460 + Int.fdiv doe 36524 - Int.fdiv doe 146096) 365
  let y := yoe + era * 400
  let doy := doe - (365 * yoe + Int.fdiv yoe 4 - Int.fdiv yoe 100)
  let mp := Int.fdiv (5 * doy + 2) 153
  let d := doy - Int.fdiv (153 * mp + 2) 5 + 1
  let m := mp + (if mp < 10 then 3 else -9)
  (if m ≤ 2 then y + 1 else y, m, d)

/-- Seconds since the epoch of a `PyDateTime`. -/
def dtToSeconds (t : PyDateTime) : Int :=
  days_from_civil t.year t.month t.day * 86400 + t.hour * 3600 + t.minute * 60 + t.second

/-- `PyDateTime` of an epoch-second count. -/
def dtOfSeconds (s : Int) : PyDateTime :=
  let days := Int.fdiv s 86400
  let rem := s - days * 86400
  let c := civil_from_days days
  ⟨c.1, c.2.1, c.2.2, Int.fdiv rem 3600, Int.fdiv (Int.fmod rem 3600) 60, Int.fmod rem 60⟩

/-- `pywrf.util.dates.advance_date` (src/pywrf/util/dates.py lines 87-102)
restricted to the whole-hour increments used by the namelist calculators:
`date + timedelta(hours=increment_h)`. -/
def advance_date (date : PyDateTime) (increment_h : Int) : PyDateTime :=
  dtOfSeconds (dtToSeconds date + 3600 * increment_h)

/-- Python list subscription `l[i]` with an `Int` index: non-negative indices
count from the front, negative indices from the back; an out-of-range index
(an `IndexError` in Python) is modelled by the default `dflt`, which no
theorem below depends on. -/
def pyGet {α : Type} (dflt : α) (l : List α) (i : Int) : α :=
  if 0 ≤ i then ((l.get? i.toNat).getD dflt)
  else if 0 ≤ i + l.length then ((l.get? (i + l.length).toNat).getD dflt)
  else dflt

/-- The slice of the namelist document state read and written by
`NdownNdownNamelist.calc_other` (src/pywrf/namelist/wrf.py lines 372-412):
the `pywrf_store` bookkeeping section, the `domains` section, the
`time_control` section, the `date_s`/`date_e` attributes, and the
`ndown/interval_seconds` configuration value (`Option.none` when the key is
absent or null, in which case `from_config` keeps the current value). -/
structure NdownState where
  date_s : PyDateTime
  date_e : PyDateTime
  pywrf_parent_id : List Int
  pywrf_fine_domains : List Int
  dom_max_dom : Int
  dom_parent_id : List Int
  dom_parent_grid_r : List Int
  dom_i_parent_start : List Int
  dom_j_parent_start : List Int
  dom_e_we : List Int
  dom_e_sn : List Int
  dom_dx : List ℚ
  dom_dy : List ℚ
  tc_start_year : List Int
  tc_start_month : List Int
  tc_start_day : List Int
  tc_start_hour : List Int
  tc_end_year : List Int
  tc_end_month : List Int
  tc_end_day : List Int
  tc_end_hour : List Int
  tc_interval_seconds : Int
  cfg_ndown_interval_seconds : Option Int

/-- `NdownNdownNamelist.calc_other` (src/pywrf/namelist/wrf.py lines
372-412), field for field: select the first fine domain and its immediate
parent, advance the end date by one hour when it coincides with the start
date, force exactly two domains renumbered `[0, 1]`, and re-emit the
time-control date arrays for the two domains.  (`dom_parent_grid_r` carries
the source's `parent_grid_ratio`; Python's float division of grid ratios on
line 394 is irrelevant here because the stored ratios are ints and the Ndown
variant reads the raw list.) -/
def NdownNdownNamelist_calc_other (s : NdownState) : NdownState :=
  let first_fine := pyGet 0 s.pywrf_fine_domains 0
  let first_fine_parent := pyGet 0 s.pywrf_parent_id (first_fine - 1)
  let date_e := if s.date_s = s.date_e then advance_date s.date_e 1 else s.date_e
  { s with
    date_e := date_e
    dom_max_dom := 2
    dom_parent_id := [0, 1]
    dom_parent_grid_r := [1, pyGet 0 s.dom_parent_grid_r (first_fine - 1)]
    dom_i_parent_start := [1, pyGet 0 s.dom_i_parent_start (first_fine - 1)]
    dom_j_parent_start := [1, pyGet 0 s.dom_j_parent_start (first_fine - 1)]
    dom_e_we := [first_fine_parent, first_fine].map (fun i => pyGet 0 s.dom_e_we (i - 1))
    dom_e_sn := [first_fine_parent, first_fine].map (fun j => pyGet 0 s.dom_e_sn (j - 1))
    dom_dx := [first_fine_parent, first_fine].map (fun i => pyGet 0 s.dom_dx (i - 1))
    dom_dy := [first_fine_parent, first_fine].map (fun j => pyGet 0 s.dom_dy (j - 1))
    tc_start_year := List.replicate 2 s.date_s.year
    tc_start_month := List.replicate 2 s.date_s.month
    tc_start_day := List.replicate 2 s.date_s.day
    tc_start_hour := List.replicate 2 s.date_s.hour
    tc_end_year := List.replicate 2 date_e.year
    tc_end_month := List.replicate 2 date_e.month
    tc_end_day := List.replicate 2 date_e.day
    tc_end_hour := List.replicate 2 date_e.hour
    tc_interval_seconds := s.cfg_ndown_interval_seconds.getD s.tc_interval_seconds }

/-! ## Helper lemmas -/

theorem transform_value_none (d : PyVal) : transform_value PyVal.none d = .ok d := rfl

theorem startK_27000_10800 : startK 27000 10800 = 80 := by
  unfold startK
  rw [show ((10800 : ℕ) : ℚ) / (5 * 27000 / 1000) = ((80 : ℤ) : ℚ) by norm_num]
  rw [Int.ceil_intCast]
  rfl

theorem stepCondP_10800_80 : ¬ stepCondP 10800 80 := by
  unfold stepCondP
  norm_num

theorem calc_time_step_27000 : calc_time_step 27000 10800 = 135 := by
  unfold calc_time_step
  rw [startK_27000_10800, stepLoop_eq_self 10800 80 stepCondP_10800_80]

/-- C1 (counterexample): `calc_time_step(dx=27000, interval_seconds=10800)`
does not return the claimed golden value 180 — it returns 135. -/
theorem calc_time_step_not_180 : calc_time_step 27000 10800 ≠ 180 := by
  rw [calc_time_step_27000]
  decide

/-- C1 (amended): `calc_time_step(dx=27000, interval_seconds=10800)` returns
135: the search starts at the divisor count `k = ceil(10800/(5*27000/1000)) =
80`, which is accepted immediately because `10800/80 = 135` is an exact
integer, and the returned time step is `10800/80 = 135` (which divides 10800
evenly, `10800 = 135 * 80`). -/
theorem calc_time_step_golden_value :
    calc_time_step 27000 10800 = 135
    ∧ 10800 % 135 = 0
    ∧ startK 27000 10800 = 80
    ∧ stepLoop 10800 (startK 27000 10800) = 80
    ∧ 10800 / 80 = 135 := by
  refine ⟨calc_time_step_27000, by decide, startK_27000_10800, ?_, by decide⟩
  rw [startK_27000_10800]
  exact stepLoop_eq_self 10800 80 stepCondP_10800_80

/-! ## C3 -/

/-- C4: coercion of comma/asterisk list specifications:
`"1, 2, 3"` gives the ordered list `[1,2,3]`, `"2*3"` expands to `[3,3]`,
`"2*3, 4"` to `[3,3,4]` and `"2*3, text"` to `[3,3,"text"]` (repeat counts
expand and one level of nesting is flattened). -/
theorem transform_value_list_specs :
    transform_value (.str (strOf ("1, 2, 3"))) .none
      = .ok (.list [.int 1, .int 2, .int 3])
    ∧ transform_value (.str (strOf ("2*3"))) .none
      = .ok (.list [.int 3, .int 3])
    ∧ transform_value (.str (strOf ("2*3, 4"))) .none
      = .ok (.list [.int 3, .int 3, .int 4])
    ∧ transform_value (.str (strOf ("2*3, text"))) .none
      = .ok (.list [.int 3, .int 3, .str (strOf ("text"))]) :=
  ⟨rfl, rfl, rfl, rfl⟩

/-! ## C6 -/

/-- C6: `coerce("eval(3+4)")` evaluates the embedded expression to the
integer 7, while the malformed `coerce("eval('3 + 4)")` raises a fatal
evaluation error whose message contains the offending inner expression
text `3 + 4`. -/
theorem transform_value_eval_marker :
    transform_value (.str (strOf ("eval(3+4)"))) .none = .ok (.int 7)
    ∧ transform_value (.str (strOf ("eval('3 + 4)"))) .none
      = .error (.evalError (strOf ("Error while parsing '3 + 4'")))
    ∧ List.IsInfix (strOf ("3 + 4")) (strOf ("Error while parsing '3 + 4'")) :=
  ⟨rfl, rfl, ⟨strOf ("Error while parsing '"), strOf ("'"), rfl⟩⟩

/-! ## C7 -/

/-- C7: a textual value without an `eval(...)` marker that contains at least
one of the operators `+ - * / %` and neither a comma nor an asterisk is left
unchanged by coercion (so hyphenated date strings are never auto-evaluated). -/
theorem transform_value_keeps_operator_text (s : Str)
    (hm : findEvalMatches s = [])
    (hop : containsArithOp s = true)
    (hc : containsChar s ',' = false)
    (ha : containsChar s '*' = false) :
    transform_value (PyVal.str s) PyVal.none = .ok (PyVal.str s) := by
  have htr : tryto_eval s = .ok (PyVal.str s) := by
    unfold tryto_eval
    rw [hm]
    simp [hop]
  unfold transform_value
  simp only [htr, hc, ha, Bool.or_self, Bool.false_eq_true, if_false, PyVal.isNone,
    Bool.not_true, Bool.false_and]

/-- Witness for `transform_value_keeps_operator_text` at the date string
`"2015-01-01"`. -/
theorem transform_value_keeps_operator_text_witness :
    containsArithOp (strOf ("2015-01-01")) = true
    ∧ transform_value (PyVal.str (strOf ("2015-01-01"))) PyVal.none
      = .ok (PyVal.str (strOf ("2015-01-01"))) :=
  ⟨rfl, transform_value_keeps_operator_text _ rfl rfl rfl rfl⟩

/-! ## C2 -/

/-- C2 (counterexample): the claimed absent/null distinction does not exist in
the code.  A key that is *present but null* is a hard failure for the strict
lookup (it raises `KeyError`, it does not yield the default), and an *absent*
key is not a failure for the default-taking lookup (it yields the default). -/
theorem configstore_get_distinction_fails :
    ConfigStore.get ⟨[(strOf ("k"), PyVal.none)]⟩ [strOf ("k")] true (PyVal.int 0)
      = .error (.keyError (strOf ("k")))
    ∧ ConfigStore.get ⟨[]⟩ [strOf ("a")] false (PyVal.int 7) = .ok (.int 7) :=
  ⟨rfl, rfl⟩

/-- C2 (amended): `SmartOrderedDict.__missing__` returns `None` for an absent
key, so an absent terminal key and a terminal key holding a null value are
indistinguishable in `ConfigStore.get`: both raise the distinguished
`KeyError` in strict mode, and both yield the caller-supplied default in the
default-taking mode. -/
theorem configstore_get_null_or_absent (entries : List (Str × PyVal)) (k : Str) (d : PyVal)
    (hk : splitAll k '/' = [k])
    (h : sodLookup entries k = PyVal.none) :
    ConfigStore.get ⟨entries⟩ [k] true d = .error (.keyError k)
    ∧ ConfigStore.get ⟨entries⟩ [k] false d = .ok d := by
  unfold ConfigStore.get
  have hj : joinWith '/' [k] = k := rfl
  rw [hj, hk]
  unfold getLoop pyIndex
  simp only [h, PyVal.isNone, if_true]
  refine ⟨trivial, ?_⟩
  rfl

/-- Witness for `configstore_get_null_or_absent` on a store whose key `k`
holds an explicit null. -/
theorem configstore_get_null_or_absent_witness :
    ConfigStore.get ⟨[(strOf ("k"), PyVal.none)]⟩ [strOf ("k")] true (PyVal.int 5)
      = .error (.keyError (strOf ("k")))
    ∧ ConfigStore.get ⟨[(strOf ("k"), PyVal.none)]⟩ [strOf ("k")] false (PyVal.int 5)
      = .ok (PyVal.int 5) :=
  configstore_get_null_or_absent _ _ _ rfl rfl

/-! ## C10 -/

theorem getLoop_walk (pre : List Str) : ∀ v w : PyVal, walkOk v pre = Option.some w →
    ∀ (a : Str) (rest : List Str) (rk : Bool) (d : PyVal), pyIndex w a = .ok PyVal.none →
    getLoop v (pre ++ a :: rest) rk d = if rk then .error (.keyError a) else .ok d := by
  induction pre with
  | nil =>
    intro v w hwalk a rest rk d hnone
    simp only [walkOk, Option.some.injEq] at hwalk
    subst hwalk
    simp only [List.nil_append]
    unfold getLoop
    rw [hnone]
    cases rk <;> rfl
  | cons p ps ih =>
    intro v w hwalk a rest rk d hnone
    simp only [walkOk] at hwalk
    cases hpi : pyIndex v p with
    | error e =>
      simp only [hpi] at hwalk
      exact Option.noConfusion hwalk
    | ok v' =>
      simp only [hpi] at hwalk
      by_cases hn : v'.isNone = true
      · simp only [hn, if_true] at hwalk
        exact Option.noConfusion hwalk
      · simp only [hn, if_false, Bool.false_eq_true] at hwalk
        simp only [List.cons_append]
        unfold getLoop
        simp only [hpi, hn, if_false, Bool.false_eq_true]
        exact ih v' w hwalk a rest rk d hnone

/-- C10: if the first absent-or-null segment of a lookup path is an
intermediate (non-terminal) segment, `ConfigStore.get` short-circuits right
there — `KeyError` in strict mode, the caller's default in lenient mode —
and never indexes into the missing subtree, so no other exception can arise
from traversing past an absent intermediate key. -/
theorem configstore_get_short_circuit (store : ConfigStore) (args pre : List Str)
    (a : Str) (rest : List Str) (v : PyVal) (rk : Bool) (d : PyVal)
    (hsegs : splitAll (joinWith '/' args) '/' = pre ++ a :: rest)
    (hwalk : walkOk (PyVal.dict store._values) pre = Option.some v)
    (hnone : pyIndex v a = .ok PyVal.none)
    (_hrest : rest ≠ []) :
    ConfigStore.get store args rk d = if rk then .error (.keyError a) else .ok d := by
  unfold ConfigStore.get
  rw [hsegs]
  exact getLoop_walk pre _ v hwalk a rest rk d hnone

/-- Witness for `configstore_get_short_circuit`: in the store
`{a: {b: null}}`, the strict lookup of `a/b/c` raises `KeyError` at the
intermediate segment `b` (it never tries to subscript the null). -/
theorem configstore_get_short_circuit_witness :
    ConfigStore.get ⟨[(strOf ("a"), PyVal.dict [(strOf ("b"), PyVal.none)])]⟩
      [strOf ("a"), strOf ("b"), strOf ("c")] true (PyVal.int 3)
      = .error (.keyError (strOf ("b"))) :=
  configstore_get_short_circuit _ _ [strOf ("a")] (strOf ("b")) [strOf ("c")]
    (PyVal.dict [(strOf ("b"), PyVal.none)]) true (PyVal.int 3)
    rfl rfl rfl (List.cons_ne_nil _ _)

/-! ## C5 -/

theorem sodUpdateF_nil (fuel : Nat) (self : List (Str × PyVal)) :
    sodUpdateF fuel self [] = .ok self := by
  cases fuel <;> rfl

/-- C5: include-merge precedence.  Concretely: a child tree
`{existing: 2, imported: 3}` merged below a parent file that includes it and
itself defines `existing = 1`, `new = 4` resolves to
`{existing: 1, imported: 3, new: 4}` (parent wins at `existing`, `imported`
is inherited, and the `include` key itself is discarded).  Generally, one
merge step merges recursively exactly when both sides are mapping-typed, and
otherwise (key absent, or either side non-mapping) the later value
overwrites. -/
theorem include_merge_semantics :
    mergeIncludes
      [(strOf ("include"), PyVal.str (strOf ("child.yaml"))),
       (strOf ("existing"), PyVal.int 1), (strOf ("new"), PyVal.int 4)]
      [[(strOf ("existing"), PyVal.int 2), (strOf ("imported"), PyVal.int 3)]]
      = .ok [(strOf ("existing"), PyVal.int 1), (strOf ("imported"), PyVal.int 3),
             (strOf ("new"), PyVal.int 4)]
    ∧ (∀ (fuel : Nat) (self : List (Str × PyVal)) (k : Str) (s od : List (Str × PyVal)),
        sodFind self k = Option.some (PyVal.dict s) →
        sodUpdateF (fuel + 1) self [(k, PyVal.dict od)]
          = match sodUpdateF fuel s od with
            | .error e => .error e
            | .ok m => .ok (sodSetRaw self k (PyVal.dict m)))
    ∧ (∀ (fuel : Nat) (self : List (Str × PyVal)) (k : Str) (o : PyVal),
        sodFind self k = Option.none →
        sodUpdateF (fuel + 1) self [(k, o)] = sodSet self k o)
    ∧ (∀ (fuel : Nat) (self : List (Str × PyVal)) (k : Str) (v o : PyVal),
        sodFind self k = Option.some v →
        v.ty ≠ PyTy.dictTy ∨ o.ty ≠ PyTy.dictTy →
        sodUpdateF (fuel + 1) self [(k, o)] = sodSet self k o) := by
  refine ⟨rfl, ?_, ?_, ?_⟩
  · intro fuel self k s od hf
    simp only [sodUpdateF, hf]
    cases hrec : sodUpdateF fuel s od with
    | error e => rfl
    | ok m => simp only [sodUpdateF_nil]
  · intro fuel self k o hf
    simp only [sodUpdateF, hf]
    cases hset : sodSet self k o with
    | error e => rfl
    | ok m => simp only [sodUpdateF_nil]
  · intro fuel self k v o hf hne
    cases v with
    | dict s =>
      cases o with
      | dict od =>
        exfalso
        rcases hne with hne | hne <;> exact hne rfl
      | none =>
        simp only [sodUpdateF, hf]
        cases hset : sodSet self k PyVal.none with
        | error e => rfl
        | ok m => simp only [sodUpdateF_nil]
      | int n =>
        simp only [sodUpdateF, hf]
        cases hset : sodSet self k (PyVal.int n) with
        | error e => rfl
        | ok m => simp only [sodUpdateF_nil]
      | str t =>
        simp only [sodUpdateF, hf]
        cases hset : sodSet self k (PyVal.str t) with
        | error e => rfl
        | ok m => simp only [sodUpdateF_nil]
      | bool b =>
        simp only [sodUpdateF, hf]
        cases hset : sodSet self k (PyVal.bool b) with
        | error e => rfl
        | ok m => simp only [sodUpdateF_nil]
      | list xs =>
        simp only [sodUpdateF, hf]
        cases hset : sodSet self k (PyVal.list xs) with
        | error e => rfl
        | ok m => simp only [sodUpdateF_nil]
      | tuple xs =>
        simp only [sodUpdateF, hf]
        cases hset : sodSet self k (PyVal.tuple xs) with
        | error e => rfl
        | ok m => simp only [sodUpdateF_nil]
    | none =>
      simp only [sodUpdateF, hf]
      cases hset : sodSet self k o with
      | error e => rfl
      | ok m => simp only [sodUpdateF_nil]
    | int n =>
      simp only [sodUpdateF, hf]
      cases hset : sodSet self k o with
      | error e => rfl
      | ok m => simp only [sodUpdateF_nil]
    | str t =>
      simp only [sodUpdateF, hf]
      cases hset : sodSet self k o with
      | error e => rfl
      | ok m => simp only [sodUpdateF_nil]
    | bool b =>
      simp only [sodUpdateF, hf]
      cases hset : sodSet self k o with
      | error e => rfl
      | ok m => simp only [sodUpdateF_nil]
    | list xs =>
      simp only [sodUpdateF, hf]
      cases hset : sodSet self k o with
      | error e => rfl
      | ok m => simp only [sodUpdateF_nil]
    | tuple xs =>
      simp only [sodUpdateF, hf]
      cases hset : sodSet self k o with
      | error e => rfl
      | ok m => simp only [sodUpdateF_nil]

/-- Witness for `include_merge_semantics` (its quantified conjuncts applied
at concrete stores): a nested mapping is merged key-by-key, an absent key and
a non-mapping conflict are overwritten. -/
theorem include_merge_semantics_witness :
    sodUpdateF 2 [(strOf ("a"), PyVal.dict [(strOf ("x"), PyVal.int 1)])]
      [(strOf ("a"), PyVal.dict [(strOf ("y"), PyVal.int 2)])]
      = .ok [(strOf ("a"),
          PyVal.dict [(strOf ("x"), PyVal.int 1), (strOf ("y"), PyVal.int 2)])]
    ∧ sodUpdateF 3 [] [(strOf ("b"), PyVal.int 5)] = sodSet [] (strOf ("b")) (PyVal.int 5)
    ∧ sodUpdateF 4 [(strOf ("c"), PyVal.int 1)] [(strOf ("c"), PyVal.int 9)]
      = sodSet [(strOf ("c"), PyVal.int 1)] (strOf ("c")) (PyVal.int 9) := by
  obtain ⟨-, h2, h3, h4⟩ := include_merge_semantics
  refine ⟨?_, h3 2 [] (strOf ("b")) (PyVal.int 5) rfl, ?_⟩
  · rw [h2 1 [(strOf ("a"), PyVal.dict [(strOf ("x"), PyVal.int 1)])] (strOf ("a"))
      [(strOf ("x"), PyVal.int 1)] [(strOf ("y"), PyVal.int 2)] (by rfl)]
    rfl
  · exact h4 3 _ _ (PyVal.int 1) (PyVal.int 9) rfl (Or.inl (by decide))

/-! ## C8 -/

/-- C8: the Downscale-Ndown variant always emits exactly 2 domains whatever
the input domain count: `max_dom = 2`, the parent ids are renumbered `[0, 1]`,
every emitted per-domain array has length 2, and the per-domain extents are
those of the immediate parent of the first fine domain followed by the first
fine domain itself.  When the start date equals the end date, the emitted end
date is exactly one hour after the start date. -/
theorem ndown_two_domains (s : NdownState) :
    (NdownNdownNamelist_calc_other s).dom_max_dom = 2
    ∧ (NdownNdownNamelist_calc_other s).dom_parent_id = [0, 1]
    ∧ (NdownNdownNamelist_calc_other s).dom_parent_grid_r.length = 2
    ∧ (NdownNdownNamelist_calc_other s).dom_i_parent_start.length = 2
    ∧ (NdownNdownNamelist_calc_other s).dom_j_parent_start.length = 2
    ∧ (NdownNdownNamelist_calc_other s).dom_e_we.length = 2
    ∧ (NdownNdownNamelist_calc_other s).dom_e_sn.length = 2
    ∧ (NdownNdownNamelist_calc_other s).dom_dx.length = 2
    ∧ (NdownNdownNamelist_calc_other s).dom_dy.length = 2
    ∧ (NdownNdownNamelist_calc_other s).tc_start_year.length = 2
    ∧ (NdownNdownNamelist_calc_other s).tc_start_month.length = 2
    ∧ (NdownNdownNamelist_calc_other s).tc_start_day.length = 2
    ∧ (NdownNdownNamelist_calc_other s).tc_start_hour.length = 2
    ∧ (NdownNdownNamelist_calc_other s).tc_end_year.length = 2
    ∧ (NdownNdownNamelist_calc_other s).tc_end_month.length = 2
    ∧ (NdownNdownNamelist_calc_other s).tc_end_day.length = 2
    ∧ (NdownNdownNamelist_calc_other s).tc_end_hour.length = 2
    ∧ (NdownNdownNamelist_calc_other s).dom_e_we
      = [pyGet 0 s.dom_e_we
           (pyGet 0 s.pywrf_parent_id (pyGet 0 s.pywrf_fine_domains 0 - 1) - 1),
         pyGet 0 s.dom_e_we (pyGet 0 s.pywrf_fine_domains 0 - 1)]
    ∧ (s.date_s = s.date_e →
        (NdownNdownNamelist_calc_other s).date_e = advance_date s.date_s 1)
    ∧ (s.date_s = s.date_e →
        (NdownNdownNamelist_calc_other s).tc_end_hour
          = List.replicate 2 (advance_date s.date_s 1).hour) := by
  unfold NdownNdownNamelist_calc_other
  refine ⟨rfl, rfl, rfl, rfl, rfl, rfl, rfl, rfl, rfl, rfl, rfl, rfl, rfl, rfl, rfl,
    rfl, rfl, rfl, fun h => ?_, fun h => ?_⟩
  · simp [h]
  · simp [h]

/-- A concrete three-domain input state for the Ndown variant whose start
and end dates coincide. -/
def exampleNdownState : NdownState :=
  { date_s := ⟨2015, 1, 1, 0, 0, 0⟩
    date_e := ⟨2015, 1, 1, 0, 0, 0⟩
    pywrf_parent_id := [0, 1, 2]
    pywrf_fine_domains := [3]
    dom_max_dom := 3
    dom_parent_id := [0, 1, 2]
    dom_parent_grid_r := [1, 3, 3]
    dom_i_parent_start := [1, 10, 10]
    dom_j_parent_start := [1, 10, 10]
    dom_e_we := [70, 88, 91]
    dom_e_sn := [70, 88, 91]
    dom_dx := [27000, 9000, 3000]
    dom_dy := [27000, 9000, 3000]
    tc_start_year := [2015, 2015, 2015]
    tc_start_month := [1, 1, 1]
    tc_start_day := [1, 1, 1]
    tc_start_hour := [0, 0, 0]
    tc_end_year := [2015, 2015, 2015]
    tc_end_month := [1, 1, 1]
    tc_end_day := [1, 1, 1]
    tc_end_hour := [0, 0, 0]
    tc_interval_seconds := 10800
    cfg_ndown_interval_seconds := Option.none }

/-- Witness for `ndown_two_domains` on a 3-domain state whose start and end
dates coincide (2015-01-01 00:00:00): the output has exactly two domains and
its end date is 2015-01-01 01:00:00. -/
theorem ndown_two_domains_witness :
    (NdownNdownNamelist_calc_other exampleNdownState).dom_max_dom = 2
    ∧ (NdownNdownNamelist_calc_other exampleNdownState).date_e = ⟨2015, 1, 1, 1, 0, 0⟩ := by
  obtain ⟨hmax, hpid, hpgr, hips, hjps, hewe, hesn, hdx, hdy, hsy, hsm, hsd, hsh,
    hey, hem, hed, heh, hwe2, hdate, hhour⟩ := ndown_two_domains exampleNdownState
  refine ⟨hmax, ?_⟩
  rw [hdate rfl]
  decide

/-! ## C9 -/

/-- `fc'`, the derivative of the blended tangent curve `fc`. -/
noncomputable def fcD (x : ℝ) : ℝ := -(21/10) * x^2 + 2*x + 7/10

/-- `n0*h10' + n1*h11'`, the derivative of the additive tail of `eta`. -/
noncomputable def pTail (x : ℝ) : ℝ := -(57/40) * x^2 + (27/20) * x - 1/5

/-- The derivative of the eta-level curve: `h00'(fc(x))·fc'(x) + tail'(x)`. -/
noncomputable def etaD (x : ℝ) : ℝ := (6 * fcH x ^ 2 - 6 * fcH x) * fcD x + pTail x

theorem fcH_poly (x : ℝ) : fcH x = -(7/10)*x^3 + x^2 + (7/10)*x := by
  unfold fcH h01 h10 h11
  ring

theorem hasDerivAt_fcH (x : ℝ) : HasDerivAt (fun y : ℝ => fcH y) (fcD x) x := by
  have hfun : (fun y : ℝ => fcH y) = fun y : ℝ => -(7/10)*y^3 + y^2 + (7/10)*y := by
    funext y
    exact fcH_poly y
  rw [hfun]
  have h3 : HasDerivAt (fun y : ℝ => y^3) (3*x^2) x := by
    simpa using hasDerivAt_pow 3 x
  have h2 : HasDerivAt (fun y : ℝ => y^2) (2*x) x := by
    simpa using hasDerivAt_pow 2 x
  have h1 : HasDerivAt (fun y : ℝ => y) 1 x := hasDerivAt_id x
  have hsum := ((h3.const_mul (-(7/10) : ℝ)).add h2).add (h1.const_mul ((7/10) : ℝ))
  convert hsum using 1
  unfold fcD
  ring

theorem hasDerivAt_h00 (t : ℝ) : HasDerivAt (fun y : ℝ => h00 y) (6*t^2 - 6*t) t := by
  have hfun : (fun y : ℝ => h00 y) = fun y : ℝ => 2*y^3 - 3*y^2 + 1 := by
    funext y
    unfold h00
    ring
  rw [hfun]
  have h3 : HasDerivAt (fun y : ℝ => y^3) (3*t^2) t := by
    simpa using hasDerivAt_pow 3 t
  have h2 : HasDerivAt (fun y : ℝ => y^2) (2*t) t := by
    simpa using hasDerivAt_pow 2 t
  have hsum := ((h3.const_mul (2 : ℝ)).sub (h2.const_mul (3 : ℝ))).add_const 1
  convert hsum using 1
  ring

theorem hasDerivAt_tail (x : ℝ) :
    HasDerivAt (fun y : ℝ => (-(1/5)) * h10 y + (-(11/40)) * h11 y) (pTail x) x := by
  have hfun : (fun y : ℝ => (-(1/5)) * h10 y + (-(11/40)) * h11 y)
      = fun y : ℝ => (-(1/5)) * (y^3 - 2*y^2 + y) + (-(11/40)) * (y^3 - y^2) := by
    funext y
    unfold h10 h11
    ring
  rw [hfun]
  have h3 : HasDerivAt (fun y : ℝ => y^3) (3*x^2) x := by
    simpa using hasDerivAt_pow 3 x
  have h2 : HasDerivAt (fun y : ℝ => y^2) (2*x) x := by
    simpa using hasDerivAt_pow 2 x
  have h1 : HasDerivAt (fun y : ℝ => y) 1 x := hasDerivAt_id x
  have ha : HasDerivAt (fun y : ℝ => y^3 - 2*y^2 + y) (3*x^2 - 2*(2*x) + 1) x :=
    (h3.sub (h2.const_mul (2 : ℝ))).add h1
  have hb : HasDerivAt (fun y : ℝ => y^3 - y^2) (3*x^2 - 2*x) x := h3.sub h2
  have hsum := (ha.const_mul (-(1/5) : ℝ)).add (hb.const_mul (-(11/40) : ℝ))
  convert hsum using 1
  unfold pTail
  ring

theorem hasDerivAt_etaH (x : ℝ) : HasDerivAt (fun y : ℝ => etaH y) (etaD x) x := by
  have hfun : (fun y : ℝ => etaH y)
      = fun y : ℝ => h00 (fcH y) + ((-(1/5)) * h10 y + (-(11/40)) * h11 y) := by
    funext y
    unfold etaH
    ring
  rw [hfun]
  have hcomp : HasDerivAt (fun y : ℝ => h00 (fcH y))
      ((6 * fcH x ^ 2 - 6 * fcH x) * fcD x) x :=
    (hasDerivAt_h00 (fcH x)).comp x (hasDerivAt_fcH x)
  have := hcomp.add (hasDerivAt_tail x)
  convert this using 1

theorem etaD_neg (x : ℝ) (h0 : 0 ≤ x) (h1 : x ≤ 1) : etaD x < 0 := by
  have hF : fcH x = -(7/10)*x^3 + x^2 + (7/10)*x := fcH_poly x
  have hFa : (7/10)*x ≤ fcH x := by
    have hfac : 0 ≤ x^2 * (1 - (7/10)*x) :=
      mul_nonneg (sq_nonneg x) (by linarith)
    nlinarith [hfac]
  have hFb : (3/5)*(1-x) ≤ 1 - fcH x := by
    have hfac : 0 ≤ (1-x)^2 * ((7*x+4)/10) :=
      mul_nonneg (sq_nonneg (1-x)) (by linarith)
    nlinarith [hfac]
  have hG : (3/5 : ℝ) ≤ fcD x := by
    have hfac : 0 ≤ (1-x) * ((21*x+1)/10) :=
      mul_nonneg (by linarith) (by linarith)
    unfold fcD
    nlinarith [hfac]
  have hFpos : 0 ≤ fcH x := le_trans (by nlinarith) hFa
  have h1F : 0 ≤ 1 - fcH x := le_trans (by nlinarith) hFb
  have hGpos : (0 : ℝ) ≤ fcD x := by linarith
  have t1 : 0 ≤ (fcH x - (7/10)*x) * (1 - fcH x) * fcD x :=
    mul_nonneg (mul_nonneg (by linarith) h1F) hGpos
  have t2 : 0 ≤ ((7/10)*x) * ((1 - fcH x) - (3/5)*(1-x)) * fcD x :=
    mul_nonneg (mul_nonneg (by linarith) (by linarith)) hGpos
  have t3 : 0 ≤ ((7/10)*x) * ((3/5)*(1-x)) * (fcD x - 3/5) :=
    mul_nonneg (mul_nonneg (by linarith) (by nlinarith)) (by linarith)
  have key : (189/125)*x*(1-x) ≤ 6 * fcH x * (1 - fcH x) * fcD x := by
    nlinarith [t1, t2, t3]
  have hEq : etaD x = -(6 * fcH x * (1 - fcH x) * fcD x) + pTail x := by
    unfold etaD
    ring
  have hx2 : x^2 ≤ x := by nlinarith
  have hP : pTail x < (189/125)*x*(1-x) := by
    unfold pTail
    nlinarith [hx2]
  linarith [key, hP, hEq.le, hEq.ge]

theorem etaH_strictAntiOn : StrictAntiOn (fun y : ℝ => etaH y) (Set.Icc 0 1) := by
  apply strictAntiOn_of_deriv_neg (convex_Icc 0 1)
  · have hdiff : Differentiable ℝ (fun y : ℝ => etaH y) :=
      fun x => (hasDerivAt_etaH x).differentiableAt
    exact hdiff.continuous.continuousOn
  · intro x hx
    rw [interior_Icc] at hx
    rw [(hasDerivAt_etaH x).deriv]
    exact etaD_neg x (le_of_lt hx.1) (le_of_lt hx.2)

theorem etaH_cast (q : ℚ) : ((etaH q : ℚ) : ℝ) = etaH (q : ℝ) := by
  unfold etaH fcH h00 h01 h10 h11
  push_cast
  ring

theorem etaH_zero : etaH (0 : ℚ) = 1 := by
  unfold etaH fcH h00 h01 h10 h11
  norm_num

theorem etaH_one : etaH (1 : ℚ) = 0 := by
  unfold etaH fcH h00 h01 h10 h11
  norm_num

/-- C9: for every level count `n ≥ 2`, `compute_eta_levels n` returns exactly
`n` values that are strictly decreasing, with first value exactly `1.0` and
last value exactly `0.0` (the Hermite blend with `m0=0.7, m1=0.6, n0=-0.2,
n1=-0.275` evaluated at `n` evenly spaced points of `[0,1]`). -/
theorem compute_eta_levels_spec (n : ℕ) (hn : 2 ≤ n) :
    (compute_eta_levels n).length = n
    ∧ (compute_eta_levels n).head? = Option.some 1
    ∧ (compute_eta_levels n).getLast? = Option.some 0
    ∧ (compute_eta_levels n).Pairwise (fun a b => b < a) := by
  obtain ⟨m, rfl⟩ : ∃ m, n = m + 1 := ⟨n - 1, by omega⟩
  have hm : 1 ≤ m := by omega
  have hden : ((m : ℚ)) ≠ 0 := by
    exact_mod_cast Nat.one_le_iff_ne_zero.mp hm
  have hcast : ((m + 1 : ℕ) : ℚ) - 1 = (m : ℚ) := by push_cast; ring
  have hlen : (compute_eta_levels (m + 1)).length = m + 1 := by
    rw [compute_eta_levels, List.length_map, List.length_range]
  refine ⟨hlen, ?_, ?_, ?_⟩
  · have h0 : (List.range (m + 1)).head? = Option.some 0 := by
      rw [List.range_succ_eq_map]
      rfl
    rw [compute_eta_levels, List.head?_map, h0, Option.map_some']
    rw [Nat.cast_zero, zero_div, etaH_zero]
  · rw [compute_eta_levels, List.getLast?_map, List.range_succ, List.getLast?_concat,
      Option.map_some']
    rw [hcast, div_self hden, etaH_one]
  · rw [List.pairwise_iff_getElem]
    intro i j hi hj hij
    rw [hlen] at hi hj
    simp only [compute_eta_levels, List.getElem_map, List.getElem_range]
    rw [hcast]
    have hmR : (0 : ℝ) < (m : ℝ) := by exact_mod_cast hm
    have hiR : (i : ℝ) / (m : ℝ) ∈ Set.Icc (0:ℝ) 1 := by
      constructor
      · positivity
      · rw [div_le_one hmR]
        have hile : i ≤ m := by omega
        exact_mod_cast hile
    have hjR : (j : ℝ) / (m : ℝ) ∈ Set.Icc (0:ℝ) 1 := by
      constructor
      · positivity
      · rw [div_le_one hmR]
        have hjle : j ≤ m := by omega
        exact_mod_cast hjle
    have hlt : (i : ℝ) / (m : ℝ) < (j : ℝ) / (m : ℝ) := by
      apply (div_lt_div_right hmR).mpr
      exact_mod_cast hij
    have hmain := etaH_strictAntiOn hiR hjR hlt
    rw [← Rat.cast_lt (K := ℝ), etaH_cast, etaH_cast]
    push_cast
    exact hmain

/-- Witness for `compute_eta_levels_spec` at `n = 3`. -/
theorem compute_eta_levels_spec_witness :
    (compute_eta_levels 3).length = 3
    ∧ (compute_eta_levels 3).head? = Option.some 1
    ∧ (compute_eta_levels 3).getLast? = Option.some 0
    ∧ (compute_eta_levels 3).Pairwise (fun a b => b < a) :=
  compute_eta_levels_spec 3 (by norm_num)
